import Mathlib

/-!
# Verification of `py_rate_order.py`

Shallow embedding of the rate-constant calculator: floating-point numbers are
modelled as real numbers, numpy arrays as `List ℝ`, and each Python `raise` as
an `Except.error` carrying a constructor of `RateError`.  The spec's error
taxonomy maps onto the source's `ValueError`s as follows:

* `invalidInput`   — `transform_data`'s "All concentration values must be
  positive" errors (spec: `InvalidInputError`), and scipy's shape-mismatch
  rejection inside `linregress`;
* `invalidOrder`   — `transform_data`'s "Order must be 0, 1, or 2."
  (spec: `InvalidOrderError`);
* `degenerateFit`  — scipy `linregress`'s "Cannot calculate a linear
  regression if all x values are identical" (spec: `DegenerateFitError`);
* `noValidFit`     — `determine_best_order`'s "Unable to fit any reaction
  order with the provided data." (spec: `NoValidFitError`).

`scipy.stats.linregress` is embedded by its closed form: with the bias-1
covariance entries `ssxm = Σ(tᵢ−t̄)²/n`, `ssym = Σ(yᵢ−ȳ)²/n`,
`ssxym = Σ(tᵢ−t̄)(yᵢ−ȳ)/n`, it raises when every x value is identical and
otherwise returns `slope = ssxym/ssxm`, `intercept = ȳ − slope·t̄`, and the
correlation `r = ssxym/√(ssxm·ssym)` clamped to `[-1, 1]`, with `r = 0` when
either variance vanishes.  (scipy also raises on empty input and yields NaN
slopes on single-point input; the spec's `length ≥ 2` precondition excludes
both, and the embedding folds them into `degenerateFit`.)
-/

open scoped Classical

/-- The error taxonomy of the spec, standing for the `ValueError`s the
Python source raises. -/
inductive RateError where
  | invalidInput
  | invalidOrder
  | degenerateFit
  | noValidFit
deriving DecidableEq

/-- Embedding of `transform_data(time, concentration, order)`
(`py_rate_order.py`, lines 5–34): returns `(time, y, ylabel, sign_factor)`,
or raises for a non-positive concentration (orders 1 and 2) or an order
outside `{0, 1, 2}`.  `np.any(concentration <= 0)` becomes the existential
test, `np.log` becomes `Real.log`, `1 / concentration` the elementwise
reciprocal. -/
noncomputable def transform_data (time concentration : List ℝ) (order : ℤ) :
    Except RateError (List ℝ × List ℝ × String × ℤ) :=
  if order = 0 then
    .ok (time, concentration, "[A] (M)", -1)
  else if order = 1 then
    if ∃ x ∈ concentration, x ≤ 0 then
      .error .invalidInput
    else
      .ok (time, concentration.map Real.log, "ln[A]", -1)
  else if order = 2 then
    if ∃ x ∈ concentration, x ≤ 0 then
      .error .invalidInput
    else
      .ok (time, concentration.map (fun x => 1 / x), "1/[A] (1/M)", 1)
  else
    .error .invalidOrder

/-- Result record of `scipy.stats.linregress` (the three components the
source destructures and uses: `slope, intercept, r_value`). -/
structure LinFit where
  slope : ℝ
  intercept : ℝ
  rvalue : ℝ

/-- `np.mean`: sum divided by length. -/
noncomputable def mean (xs : List ℝ) : ℝ := xs.sum / xs.length

/-- scipy's degeneracy test `np.amax(x) == np.amin(x)`: every pair of
entries is equal. -/
def allEqual (xs : List ℝ) : Prop := ∀ a ∈ xs, ∀ b ∈ xs, a = b

/-- Entry `ssxm` of `np.cov(x, y, bias=1)`: the biased variance of the
independent variable, `Σ(tᵢ−t̄)²/n`. -/
noncomputable def ssxm (t : List ℝ) : ℝ :=
  (t.map (fun a => (a - mean t) ^ 2)).sum / t.length

/-- Entry `ssym` of `np.cov(x, y, bias=1)`: the biased variance of the
response variable, `Σ(yᵢ−ȳ)²/n`. -/
noncomputable def ssym (y : List ℝ) : ℝ :=
  (y.map (fun b => (b - mean y) ^ 2)).sum / y.length

/-- Entry `ssxym` of `np.cov(x, y, bias=1)`: the biased covariance
`Σ(tᵢ−t̄)(yᵢ−ȳ)/n`. -/
noncomputable def ssxym (t y : List ℝ) : ℝ :=
  (List.zipWith (fun a b => (a - mean t) * (b - mean y)) t y).sum / t.length

/-- scipy's correlation coefficient: `0` when either variance vanishes,
otherwise `ssxym/√(ssxm·ssym)` clamped into `[-1, 1]` (scipy clamps "to
account for numerical error propagation"). -/
noncomputable def rcalc (t y : List ℝ) : ℝ :=
  if ssxm t = 0 ∨ ssym y = 0 then 0
  else max (-1) (min 1 (ssxym t y / Real.sqrt (ssxm t * ssym y)))

/-- Embedding of `scipy.stats.linregress(t, y)` as called on line 49 of the
source: rejects mismatched shapes, raises its degenerate error when all x
values are identical, and otherwise returns the OLS slope
`slope = ssxym/ssxm`, the intercept `ȳ − slope·t̄`, and the clamped
correlation coefficient. -/
noncomputable def linregress (t y : List ℝ) : Except RateError LinFit :=
  if t.length ≠ y.length then
    .error .invalidInput
  else if allEqual t then
    .error .degenerateFit
  else
    .ok ⟨ssxym t y / ssxm t, mean y - ssxym t y / ssxm t * mean t, rcalc t y⟩

/-- The tuple stored in `best_details` on line 55 of the source:
`(slope, intercept, transformed y, ylabel, sign_factor)`. -/
structure BestDetails where
  slope : ℝ
  intercept : ℝ
  y : List ℝ
  ylabel : String
  sign_factor : ℤ

/-- The running best of the selector loop: `best_order`, `best_r2`, and
`best_details` bundled together (all three are `None`/`-inf` together in the
source, so a single `Option` models them). -/
structure BestFit where
  order : ℤ
  r2 : ℝ
  details : BestDetails

/-- The fallible part of one iteration of the selector loop (the `try`
block's transform and regression, lines 48–50): `none` when either raises,
otherwise the candidate record for this order with `r2 = r_value ** 2`. -/
noncomputable def attempt (time concentration : List ℝ) (order : ℤ) :
    Option BestFit :=
  match transform_data time concentration order with
  | .error _ => none
  | .ok (t, y, ylabel, sf) =>
    match linregress t y with
    | .error _ => none
    | .ok f => some ⟨order, f.rvalue ^ 2, ⟨f.slope, f.intercept, y, ylabel, sf⟩⟩

/-- One full iteration of the selector loop (lines 46–58): on an exception
the running best is kept; on success the candidate replaces the best exactly
when `r2 > best_r2` (with `best_r2 = -np.inf` while no order has succeeded,
so the first success always replaces). -/
noncomputable def tryOrder (time concentration : List ℝ)
    (best : Option BestFit) (order : ℤ) : Option BestFit :=
  match attempt time concentration order with
  | none => best
  | some cand =>
    match best with
    | none => some cand
    | some b => if cand.r2 > b.r2 then some cand else best

/-- Embedding of `determine_best_order(time, concentration)` (lines 36–63):
fold the loop body over the fixed order list `[0, 1, 2]`, then either raise
`NoValidFitError` or return `(best_order, best_r2, best_details)`. -/
noncomputable def determine_best_order (time concentration : List ℝ) :
    Except RateError (ℤ × ℝ × BestDetails) :=
  match ([0, 1, 2] : List ℤ).foldl (tryOrder time concentration) none with
  | none => .error .noValidFit
  | some b => .ok (b.order, b.r2, b.details)

/-- The r² value a single order would contribute, when its transform and
regression both succeed: a reading of `attempt` used to state the tie-break
claim. -/
noncomputable def r2For (time concentration : List ℝ) (order : ℤ) :
    Option ℝ :=
  (attempt time concentration order).map (fun b => b.r2)

/-- Modelled from the spec: the ordinary-least-squares slope exactly as the
spec writes it, `slope = Σ(tᵢ−t̄)(yᵢ−ȳ) / Σ(tᵢ−t̄)²` (plain sums, no `1/n`
factors), for comparison with the slope the embedded `linregress` computes. -/
noncomputable def specSlope (t y : List ℝ) : ℝ :=
  (List.zipWith (fun a b => (a - mean t) * (b - mean y)) t y).sum
    / (t.map (fun a => (a - mean t) ^ 2)).sum

/-! ## Lemmas about the transformer -/

/-- Order 0 takes the first branch of `transform_data` unconditionally. -/
theorem transform_data_zero (time concentration : List ℝ) :
    transform_data time concentration 0
      = .ok (time, concentration, "[A] (M)", -1) := by
  unfold transform_data
  rw [if_pos rfl]

/-- Order 1 with every concentration positive takes the logarithm branch. -/
theorem transform_data_one_pos (time concentration : List ℝ)
    (h : ¬ ∃ x ∈ concentration, x ≤ 0) :
    transform_data time concentration 1
      = .ok (time, concentration.map Real.log, "ln[A]", -1) := by
  unfold transform_data
  rw [if_neg (by decide : ¬ (1 : ℤ) = 0), if_pos rfl, if_neg h]

/-- Order 1 with a non-positive concentration raises. -/
theorem transform_data_one_nonpos (time concentration : List ℝ)
    (h : ∃ x ∈ concentration, x ≤ 0) :
    transform_data time concentration 1 = .error .invalidInput := by
  unfold transform_data
  rw [if_neg (by decide : ¬ (1 : ℤ) = 0), if_pos rfl, if_pos h]

/-- Order 2 with every concentration positive takes the reciprocal branch. -/
theorem transform_data_two_pos (time concentration : List ℝ)
    (h : ¬ ∃ x ∈ concentration, x ≤ 0) :
    transform_data time concentration 2
      = .ok (time, concentration.map (fun x => 1 / x), "1/[A] (1/M)", 1) := by
  unfold transform_data
  rw [if_neg (by decide : ¬ (2 : ℤ) = 0), if_neg (by decide : ¬ (2 : ℤ) = 1),
    if_pos rfl, if_neg h]

/-- Order 2 with a non-positive concentration raises. -/
theorem transform_data_two_nonpos (time concentration : List ℝ)
    (h : ∃ x ∈ concentration, x ≤ 0) :
    transform_data time concentration 2 = .error .invalidInput := by
  unfold transform_data
  rw [if_neg (by decide : ¬ (2 : ℤ) = 0), if_neg (by decide : ¬ (2 : ℤ) = 1),
    if_pos rfl, if_pos h]

/-- Whenever `transform_data` succeeds, the returned time is the input time
unchanged and the returned `y` has the length of the concentration list. -/
theorem transform_data_ok_shape (time concentration : List ℝ) (order : ℤ)
    (t y : List ℝ) (lab : String) (sf : ℤ)
    (h : transform_data time concentration order = .ok (t, y, lab, sf)) :
    t = time ∧ y.length = concentration.length := by
  unfold transform_data at h
  split at h
  · simp only [Except.ok.injEq, Prod.mk.injEq] at h
    exact ⟨h.1.symm, by rw [← h.2.1]⟩
  · split at h
    · split at h
      · simp at h
      · simp only [Except.ok.injEq, Prod.mk.injEq] at h
        exact ⟨h.1.symm, by rw [← h.2.1, List.length_map]⟩
    · split at h
      · split at h
        · simp at h
        · simp only [Except.ok.injEq, Prod.mk.injEq] at h
          exact ⟨h.1.symm, by rw [← h.2.1, List.length_map]⟩
      · simp at h

/-- A successful transform pins the order to the enumerated set. -/
theorem transform_data_ok_order (time concentration : List ℝ) (order : ℤ)
    (res : List ℝ × List ℝ × String × ℤ)
    (h : transform_data time concentration order = .ok res) :
    order = 0 ∨ order = 1 ∨ order = 2 := by
  unfold transform_data at h
  split at h
  · left; assumption
  · split at h
    · right; left; assumption
    · split at h
      · right; right; assumption
      · simp at h

/-- C7: For every input with order = 0, the transformer is the identity on
the concentration values: the returned y equals the input concentration
sequence elementwise, with ylabel "[A] (M)" and sign_factor = -1, and it
never raises regardless of the sign of the concentration values. -/
theorem claim_C7 (time concentration : List ℝ) :
    transform_data time concentration 0
      = .ok (time, concentration, "[A] (M)", -1) :=
  transform_data_zero time concentration

/-- C8: For every order value outside the set {0, 1, 2}, the transformer
(`transform_data`) raises `InvalidOrderError`, for any time and
concentration sequences. -/
theorem claim_C8 (order : ℤ) (h0 : order ≠ 0) (h1 : order ≠ 1)
    (h2 : order ≠ 2) (time concentration : List ℝ) :
    transform_data time concentration order = .error .invalidOrder := by
  unfold transform_data
  rw [if_neg h0, if_neg h1, if_neg h2]

/-- Witness for C8 at the concrete order 3. -/
theorem claim_C8_witness :
    transform_data [0, 1] [1, 2] 3 = .error .invalidOrder :=
  claim_C8 3 (by decide) (by decide) (by decide) [0, 1] [1, 2]

/-- C4: For every input with order = 1 or order = 2, the transformer raises
`InvalidInputError` if and only if the concentration sequence contains a
value ≤ 0; when it does not raise, the returned y is the elementwise natural
logarithm of the concentration for order 1 and the elementwise reciprocal
for order 2. -/
theorem claim_C4 (time concentration : List ℝ) (order : ℤ)
    (h : order = 1 ∨ order = 2) :
    (transform_data time concentration order = .error .invalidInput
        ↔ ∃ x ∈ concentration, x ≤ 0) ∧
    (∀ t y lab sf,
      transform_data time concentration order = .ok (t, y, lab, sf) →
        (order = 1 → y = concentration.map Real.log) ∧
        (order = 2 → y = concentration.map (fun x => 1 / x))) := by
  by_cases hx : ∃ x ∈ concentration, x ≤ 0
  · rcases h with h | h <;> subst h
    · rw [transform_data_one_nonpos time concentration hx]
      exact ⟨by simp [hx], fun t y lab sf hok => by simp at hok⟩
    · rw [transform_data_two_nonpos time concentration hx]
      exact ⟨by simp [hx], fun t y lab sf hok => by simp at hok⟩
  · rcases h with h | h <;> subst h
    · rw [transform_data_one_pos time concentration hx]
      refine ⟨by simp [hx], fun t y lab sf hok => ?_⟩
      simp only [Except.ok.injEq, Prod.mk.injEq] at hok
      exact ⟨fun _ => hok.2.1.symm, fun h2 => by norm_num at h2⟩
    · rw [transform_data_two_pos time concentration hx]
      refine ⟨by simp [hx], fun t y lab sf hok => ?_⟩
      simp only [Except.ok.injEq, Prod.mk.injEq] at hok
      exact ⟨fun h1 => by norm_num at h1, fun _ => hok.2.1.symm⟩

/-- Witness for C4 at order 1 with a concentration list containing a
non-positive value. -/
theorem claim_C4_witness :
    (transform_data [0, 1] [2, -1] 1 = .error .invalidInput
        ↔ ∃ x ∈ ([2, -1] : List ℝ), x ≤ 0) ∧
    (∀ t y lab sf,
      transform_data [0, 1] [2, -1] 1 = .ok (t, y, lab, sf) →
        ((1 : ℤ) = 1 → y = ([2, -1] : List ℝ).map Real.log) ∧
        ((1 : ℤ) = 2 → y = ([2, -1] : List ℝ).map (fun x => 1 / x))) :=
  claim_C4 [0, 1] [2, -1] 1 (Or.inl rfl)

/-! ## Lemmas about the regression primitive -/

/-- The empty list trivially satisfies scipy's degeneracy test. -/
theorem allEqual_nil : allEqual [] := by
  intro a ha
  simp at ha

/-- Two distinct entries refute the degeneracy test. -/
theorem not_allEqual_of_distinct (xs : List ℝ)
    (h : ∃ a ∈ xs, ∃ b ∈ xs, a ≠ b) : ¬ allEqual xs := by
  rcases h with ⟨a, ha, b, hb, hab⟩
  intro hall
  exact hab (hall a ha b hb)

/-- On equal-length input whose x values are not all identical, `linregress`
succeeds with the closed-form slope, intercept and correlation. -/
theorem linregress_ok_of (t y : List ℝ) (hlen : t.length = y.length)
    (hne : ¬ allEqual t) :
    linregress t y
      = .ok ⟨ssxym t y / ssxm t, mean y - ssxym t y / ssxm t * mean t,
          rcalc t y⟩ := by
  unfold linregress
  rw [if_neg (by simp [hlen]), if_neg hne]

/-- On equal-length input whose x values are all identical, `linregress`
raises the degenerate-fit error. -/
theorem linregress_degenerate (t y : List ℝ) (hlen : t.length = y.length)
    (heq : allEqual t) :
    linregress t y = .error .degenerateFit := by
  unfold linregress
  rw [if_neg (by simp [hlen]), if_pos heq]

/-- The clamped correlation always lies in `[-1, 1]`. -/
theorem rcalc_bounds (t y : List ℝ) : -1 ≤ rcalc t y ∧ rcalc t y ≤ 1 := by
  unfold rcalc
  by_cases hc : ssxm t = 0 ∨ ssym y = 0
  · rw [if_pos hc]
    norm_num
  · rw [if_neg hc]
    exact ⟨le_max_left _ _, max_le (by norm_num) (min_le_left _ _)⟩

/-- Any successful regression has its correlation in `[-1, 1]`. -/
theorem linregress_ok_rvalue (t y : List ℝ) (f : LinFit)
    (h : linregress t y = .ok f) : -1 ≤ f.rvalue ∧ f.rvalue ≤ 1 := by
  unfold linregress at h
  split at h
  · simp at h
  · split at h
    · simp at h
    · simp only [Except.ok.injEq] at h
      rw [← h]
      exact rcalc_bounds t y

/-- Squaring the clamped correlation lands in `[0, 1]`: the r² of any
successful regression is a genuine coefficient of determination. -/
theorem linregress_ok_r2 (t y : List ℝ) (f : LinFit)
    (h : linregress t y = .ok f) : 0 ≤ f.rvalue ^ 2 ∧ f.rvalue ^ 2 ≤ 1 := by
  obtain ⟨h1, h2⟩ := linregress_ok_rvalue t y f h
  refine ⟨sq_nonneg _, ?_⟩
  nlinarith [sq_nonneg (1 - f.rvalue), sq_nonneg (1 + f.rvalue)]

/-- A successful regression forces the shape and non-degeneracy tests to
have passed. -/
theorem linregress_ok_inv (t y : List ℝ) (f : LinFit)
    (h : linregress t y = .ok f) :
    t.length = y.length ∧ ¬ allEqual t ∧
      f = ⟨ssxym t y / ssxm t, mean y - ssxym t y / ssxm t * mean t,
        rcalc t y⟩ := by
  unfold linregress at h
  split at h
  · simp at h
  · split at h
    · simp at h
    · rename_i hlen hne
      simp only [Except.ok.injEq] at h
      exact ⟨by omega, hne, h.symm⟩

/-- C6: For every attempted order whose transform succeeds and whose time
values are not all identical, the slope and intercept produced by the
regression equal the ordinary-least-squares closed form:
slope = Σ(tᵢ−t̄)(yᵢ−ȳ) / Σ(tᵢ−t̄)² and intercept = ȳ − slope·t̄, where t̄ and
ȳ are the means of the time and transformed-y sequences. -/
theorem claim_C6 (time concentration : List ℝ) (order : ℤ)
    (t y : List ℝ) (lab : String) (sf : ℤ) (f : LinFit)
    (htr : transform_data time concentration order = .ok (t, y, lab, sf))
    (hreg : linregress t y = .ok f) :
    f.slope = specSlope t y ∧ f.intercept = mean y - f.slope * mean t := by
  obtain ⟨hlen, hne, hf⟩ := linregress_ok_inv t y f hreg
  have hnil : t ≠ [] := fun h => hne (h ▸ allEqual_nil)
  have hn : (t.length : ℝ) ≠ 0 := by
    exact_mod_cast fun h => hnil (List.length_eq_zero.mp (by exact_mod_cast h))
  subst hf
  refine ⟨?_, rfl⟩
  show ssxym t y / ssxm t = specSlope t y
  unfold ssxym ssxm specSlope
  by_cases hq : ((t.map (fun a => (a - mean t) ^ 2)).sum : ℝ) = 0
  · rw [hq]
    simp
  · field_simp

/-- Witness for C6: the order-0 transform on time `[0, 1]`,
concentration `[0, 0]`, whose regression returns slope 0, intercept 0,
correlation 0. -/
theorem claim_C6_witness :
    (⟨0, 0, 0⟩ : LinFit).slope = specSlope [0, 1] [0, 0] ∧
    (⟨0, 0, 0⟩ : LinFit).intercept
      = mean [0, 0] - (⟨0, 0, 0⟩ : LinFit).slope * mean [0, 1] := by
  have hne : ¬ allEqual [0, 1] :=
    not_allEqual_of_distinct _ ⟨0, by simp, 1, by simp, by norm_num⟩
  have hmean : mean [(0 : ℝ), 0] = 0 := by
    simp [mean]
  have hssxym : ssxym [0, 1] [0, 0] = 0 := by
    simp [ssxym, hmean]
  have hreg : linregress [0, 1] [0, 0] = .ok ⟨0, 0, 0⟩ := by
    rw [linregress_ok_of [0, 1] [0, 0] (by simp) hne]
    have h1 : ssxym [0, 1] [0, 0] / ssxm [0, 1] = 0 := by
      rw [hssxym]; simp
    have h2 : rcalc [0, 1] [0, 0] = 0 := by
      unfold rcalc
      rw [if_pos (Or.inr (by simp [ssym, hmean]))]
    rw [h1, h2, hmean]
    norm_num
  exact claim_C6 [0, 1] [0, 0] 0 [0, 1] [0, 0] "[A] (M)" (-1) ⟨0, 0, 0⟩
    (transform_data_zero [0, 1] [0, 0]) hreg

/-! ## Lemmas about the selector loop -/

/-- If the transform raises, the loop body's fallible part yields nothing. -/
theorem attempt_none_of_transform (time concentration : List ℝ) (o : ℤ)
    (e : RateError) (h : transform_data time concentration o = .error e) :
    attempt time concentration o = none := by
  unfold attempt
  rw [h]

/-- If the transform succeeds but the regression raises, the loop body's
fallible part yields nothing. -/
theorem attempt_none_of_linregress (time concentration : List ℝ) (o : ℤ)
    (t y : List ℝ) (lab : String) (sf : ℤ) (e : RateError)
    (htr : transform_data time concentration o = .ok (t, y, lab, sf))
    (hlr : linregress t y = .error e) :
    attempt time concentration o = none := by
  simp [attempt, htr, hlr]

/-- If both the transform and the regression succeed, the loop body's
fallible part yields the candidate record for this order. -/
theorem attempt_some_of (time concentration : List ℝ) (o : ℤ)
    (t y : List ℝ) (lab : String) (sf : ℤ) (f : LinFit)
    (htr : transform_data time concentration o = .ok (t, y, lab, sf))
    (hlr : linregress t y = .ok f) :
    attempt time concentration o
      = some ⟨o, f.rvalue ^ 2, ⟨f.slope, f.intercept, y, lab, sf⟩⟩ := by
  simp [attempt, htr, hlr]

/-- Inversion: a successful loop-body candidate comes from a successful
transform and a successful regression, and records this order with the
squared correlation. -/
theorem attempt_some_inv (time concentration : List ℝ) (o : ℤ) (b : BestFit)
    (h : attempt time concentration o = some b) :
    ∃ t y lab sf f,
      transform_data time concentration o = .ok (t, y, lab, sf) ∧
      linregress t y = .ok f ∧
      b = ⟨o, f.rvalue ^ 2, ⟨f.slope, f.intercept, y, lab, sf⟩⟩ := by
  unfold attempt at h
  split at h
  · simp at h
  · rename_i res t y lab sf htr
    split at h
    · simp at h
    · rename_i f hlr
      simp only [Option.some.injEq] at h
      exact ⟨t, y, lab, sf, f, htr, hlr, h.symm⟩

/-- Every successful candidate records its own order, an r² inside `[0, 1]`,
and an order from the enumerated set. -/
theorem attempt_some_props (time concentration : List ℝ) (o : ℤ)
    (b : BestFit) (h : attempt time concentration o = some b) :
    b.order = o ∧ 0 ≤ b.r2 ∧ b.r2 ≤ 1 ∧ (o = 0 ∨ o = 1 ∨ o = 2) := by
  obtain ⟨t, y, lab, sf, f, htr, hlr, hb⟩ := attempt_some_inv _ _ _ _ h
  obtain ⟨h0, h1⟩ := linregress_ok_r2 t y f hlr
  subst hb
  exact ⟨rfl, h0, h1, transform_data_ok_order _ _ _ _ htr⟩

/-- C5: For every input in which all time values are identical (zero
variance in time), the regression step fails with `DegenerateFitError` for
every order rather than dividing by zero, and consequently the selector
raises `NoValidFitError`.  (The hypotheses record the spec's input
invariant: equal lengths and at least two samples.) -/
theorem claim_C5 (time concentration : List ℝ)
    (hlen : time.length = concentration.length) (htwo : 2 ≤ time.length)
    (heq : allEqual time) :
    (∀ (order : ℤ) (t y : List ℝ) (lab : String) (sf : ℤ),
        transform_data time concentration order = .ok (t, y, lab, sf) →
        linregress t y = .error .degenerateFit) ∧
    determine_best_order time concentration = .error .noValidFit := by
  have hreg : ∀ (order : ℤ) (t y : List ℝ) (lab : String) (sf : ℤ),
      transform_data time concentration order = .ok (t, y, lab, sf) →
      linregress t y = .error .degenerateFit := by
    intro order t y lab sf htr
    obtain ⟨ht, hy⟩ := transform_data_ok_shape _ _ _ _ _ _ _ htr
    subst ht
    exact linregress_degenerate t y (by omega) heq
  refine ⟨hreg, ?_⟩
  have hatt : ∀ o : ℤ, attempt time concentration o = none := by
    intro o
    cases htr : transform_data time concentration o with
    | error e => exact attempt_none_of_transform _ _ _ _ htr
    | ok res =>
      obtain ⟨t, y, lab, sf⟩ := res
      exact attempt_none_of_linregress _ _ _ _ _ _ _ _ htr
        (hreg o t y lab sf htr)
  show (match
      tryOrder time concentration
        (tryOrder time concentration
          (tryOrder time concentration none 0) 1) 2 with
    | none => Except.error RateError.noValidFit
    | some b => Except.ok (b.order, b.r2, b.details))
    = Except.error RateError.noValidFit
  have hstep : ∀ (best : Option BestFit) (o : ℤ),
      attempt time concentration o = none →
      tryOrder time concentration best o = best := by
    intro best o h
    unfold tryOrder
    rw [h]
  rw [hstep _ 0 (hatt 0), hstep _ 1 (hatt 1), hstep _ 2 (hatt 2)]

/-- Witness for C5 at the spec's example `time = [5, 5, 5]`,
`concentration = [1, 2, 3]`. -/
theorem claim_C5_witness :
    (∀ (order : ℤ) (t y : List ℝ) (lab : String) (sf : ℤ),
        transform_data [5, 5, 5] [1, 2, 3] order = .ok (t, y, lab, sf) →
        linregress t y = .error .degenerateFit) ∧
    determine_best_order [5, 5, 5] [1, 2, 3]
      = .error .noValidFit := by
  refine claim_C5 [5, 5, 5] [1, 2, 3] (by simp) (by simp) ?_
  intro a ha b hb
  simp at ha hb
  rw [ha, hb]

/-- Unfolding the fold over the fixed order list `[0, 1, 2]`. -/
theorem determine_unfold (time concentration : List ℝ) :
    determine_best_order time concentration
      = match tryOrder time concentration
            (tryOrder time concentration
              (tryOrder time concentration none 0) 1) 2 with
        | none => .error .noValidFit
        | some b => .ok (b.order, b.r2, b.details) := rfl

/-- A failed order leaves the running best untouched. -/
theorem tryOrder_none (time concentration : List ℝ)
    (best : Option BestFit) (o : ℤ)
    (h : attempt time concentration o = none) :
    tryOrder time concentration best o = best := by
  unfold tryOrder
  rw [h]

/-- The first successful order always replaces the empty running best
(in the source: any r² exceeds the initial `-np.inf`). -/
theorem tryOrder_first (time concentration : List ℝ) (o : ℤ)
    (cand : BestFit) (h : attempt time concentration o = some cand) :
    tryOrder time concentration none o = some cand := by
  unfold tryOrder
  rw [h]

/-- A successful order replaces a non-empty running best exactly when its
r² is strictly greater. -/
theorem tryOrder_cmp (time concentration : List ℝ) (o : ℤ)
    (cand b : BestFit) (h : attempt time concentration o = some cand) :
    tryOrder time concentration (some b) o
      = if cand.r2 > b.r2 then some cand else some b := by
  unfold tryOrder
  rw [h]

/-- Inversion: the best after one iteration is either this iteration's
candidate or the previous best. -/
theorem tryOrder_some_inv (time concentration : List ℝ)
    (best : Option BestFit) (o : ℤ) (b : BestFit)
    (h : tryOrder time concentration best o = some b) :
    attempt time concentration o = some b ∨ best = some b := by
  unfold tryOrder at h
  cases hatt : attempt time concentration o with
  | none =>
    rw [hatt] at h
    right
    exact h
  | some cand =>
    rw [hatt] at h
    cases best with
    | none =>
      dsimp only at h
      left
      exact h
    | some b' =>
      dsimp only at h
      by_cases hc : cand.r2 > b'.r2
      · rw [if_pos hc] at h
        left
        exact h
      · rw [if_neg hc] at h
        right
        exact h

/-- A non-empty running best never becomes empty. -/
theorem tryOrder_of_some (time concentration : List ℝ) (o : ℤ)
    (b' : BestFit) :
    ∃ b, tryOrder time concentration (some b') o = some b := by
  unfold tryOrder
  cases hatt : attempt time concentration o with
  | none => exact ⟨b', rfl⟩
  | some cand =>
    by_cases hc : cand.r2 > b'.r2
    · exact ⟨cand, by dsimp only; rw [if_pos hc]⟩
    · exact ⟨b', by dsimp only; rw [if_neg hc]⟩

/-- C1: For every input pair of equal-length real sequences with
length ≥ 2, the selector (`determine_best_order`) either returns a result
whose order is in {0, 1, 2} and whose r_squared satisfies
0 ≤ r_squared ≤ 1, or raises `NoValidFitError`; no other outcome is
possible. -/
theorem claim_C1 (time concentration : List ℝ)
    (hlen : time.length = concentration.length)
    (htwo : 2 ≤ time.length) :
    (∃ o r2 d, determine_best_order time concentration = .ok (o, r2, d) ∧
      (o = 0 ∨ o = 1 ∨ o = 2) ∧ 0 ≤ r2 ∧ r2 ≤ 1) ∨
    determine_best_order time concentration = .error .noValidFit := by
  rw [determine_unfold]
  cases hf : tryOrder time concentration
      (tryOrder time concentration
        (tryOrder time concentration none 0) 1) 2 with
  | none =>
    right
    rfl
  | some b =>
    left
    have hb : attempt time concentration 0 = some b ∨
        attempt time concentration 1 = some b ∨
        attempt time concentration 2 = some b := by
      rcases tryOrder_some_inv _ _ _ _ _ hf with h2 | h1'
      · exact Or.inr (Or.inr h2)
      · rcases tryOrder_some_inv _ _ _ _ _ h1' with h1 | h0'
        · exact Or.inr (Or.inl h1)
        · rcases tryOrder_some_inv _ _ _ _ _ h0' with h0 | hnone
          · exact Or.inl h0
          · simp at hnone
    refine ⟨b.order, b.r2, b.details, rfl, ?_⟩
    rcases hb with h | h | h <;>
      obtain ⟨ho, hr0, hr1, -⟩ := attempt_some_props _ _ _ _ h
    · exact ⟨Or.inl ho, hr0, hr1⟩
    · exact ⟨Or.inr (Or.inl ho), hr0, hr1⟩
    · exact ⟨Or.inr (Or.inr ho), hr0, hr1⟩

/-- Witness for C1 at the concrete input `time = [5, 5]`,
`concentration = [1, 1]`. -/
theorem claim_C1_witness :
    (∃ o r2 d, determine_best_order [5, 5] [1, 1] = .ok (o, r2, d) ∧
      (o = 0 ∨ o = 1 ∨ o = 2) ∧ 0 ≤ r2 ∧ r2 ≤ 1) ∨
    determine_best_order [5, 5] [1, 1] = .error .noValidFit :=
  claim_C1 [5, 5] [1, 1] (by simp) (by simp)

/-- C9: For every valid input whose time sequence contains at least two
distinct values, the selector never raises `NoValidFitError`: the order-0
transform cannot fail and its regression succeeds, so the error branch is
unreachable under this precondition. -/
theorem claim_C9 (time concentration : List ℝ)
    (hlen : time.length = concentration.length)
    (hdist : ∃ a ∈ time, ∃ b ∈ time, a ≠ b) :
    ∃ o r2 d, determine_best_order time concentration = .ok (o, r2, d) := by
  have hne := not_allEqual_of_distinct time hdist
  have hreg := linregress_ok_of time concentration hlen hne
  have h0 := attempt_some_of time concentration 0 time concentration
    "[A] (M)" (-1) _ (transform_data_zero time concentration) hreg
  obtain ⟨b1, h1⟩ := tryOrder_of_some time concentration 1
    ⟨0, (rcalc time concentration) ^ 2,
      ⟨ssxym time concentration / ssxm time,
        mean concentration
          - ssxym time concentration / ssxm time * mean time,
        concentration, "[A] (M)", -1⟩⟩
  obtain ⟨b2, h2⟩ := tryOrder_of_some time concentration 2 b1
  rw [determine_unfold, tryOrder_first _ _ _ _ h0, h1, h2]
  exact ⟨b2.order, b2.r2, b2.details, rfl⟩

/-- Witness for C9 at the concrete input `time = [0, 1]`,
`concentration = [1, 1]`. -/
theorem claim_C9_witness :
    ∃ o r2 d, determine_best_order [0, 1] [1, 1] = .ok (o, r2, d) :=
  claim_C9 [0, 1] [1, 1] (by simp)
    ⟨0, by simp, 1, by simp, by norm_num⟩

/-- C10: For every valid input whose time sequence contains at least two
distinct values and whose concentration sequence contains at least one
value ≤ 0, the selector returns order 0: orders 1 and 2 are both skipped
because their transforms reject non-positive concentrations, leaving
order 0 as the only candidate. -/
theorem claim_C10 (time concentration : List ℝ)
    (hlen : time.length = concentration.length)
    (hdist : ∃ a ∈ time, ∃ b ∈ time, a ≠ b)
    (hneg : ∃ x ∈ concentration, x ≤ 0) :
    ∃ r2 d, determine_best_order time concentration = .ok (0, r2, d) := by
  have hne := not_allEqual_of_distinct time hdist
  have hreg := linregress_ok_of time concentration hlen hne
  have h0 := attempt_some_of time concentration 0 time concentration
    "[A] (M)" (-1) _ (transform_data_zero time concentration) hreg
  have h1 : attempt time concentration 1 = none :=
    attempt_none_of_transform _ _ 1 _
      (transform_data_one_nonpos time concentration hneg)
  have h2 : attempt time concentration 2 = none :=
    attempt_none_of_transform _ _ 2 _
      (transform_data_two_nonpos time concentration hneg)
  rw [determine_unfold, tryOrder_first _ _ _ _ h0,
    tryOrder_none _ _ _ _ h1, tryOrder_none _ _ _ _ h2]
  exact ⟨_, _, rfl⟩

/-- Witness for C10 at the concrete input `time = [0, 1]`,
`concentration = [1, -1]`. -/
theorem claim_C10_witness :
    ∃ r2 d, determine_best_order [0, 1] [1, -1] = .ok (0, r2, d) :=
  claim_C10 [0, 1] [1, -1] (by simp)
    ⟨0, by simp, 1, by simp, by norm_num⟩
    ⟨-1, by simp, by norm_num⟩

/-- The best the fold returns is one of its own candidates, its r² is
maximal among all successful candidates, and on ties it carries the
earliest order: a later candidate replaces the best only under strict
`>`. -/
theorem fold_spec (time concentration : List ℝ) (b : BestFit)
    (h : tryOrder time concentration
          (tryOrder time concentration
            (tryOrder time concentration none 0) 1) 2 = some b) :
    attempt time concentration b.order = some b ∧
    ∀ (j : ℤ) (bj : BestFit), attempt time concentration j = some bj →
      bj.r2 ≤ b.r2 ∧ (bj.r2 = b.r2 → b.order ≤ j) := by
  cases h0 : attempt time concentration 0 with
  | none =>
    rw [tryOrder_none _ _ _ _ h0] at h
    cases h1 : attempt time concentration 1 with
    | none =>
      rw [tryOrder_none _ _ _ _ h1] at h
      cases h2 : attempt time concentration 2 with
      | none =>
        rw [tryOrder_none _ _ _ _ h2] at h
        exact absurd h (by simp)
      | some a2 =>
        rw [tryOrder_first _ _ _ _ h2] at h
        injection h with hb
        subst hb
        have ho2 := (attempt_some_props _ _ _ _ h2).1
        refine ⟨by rw [ho2]; exact h2, ?_⟩
        intro j bj hj
        rcases (attempt_some_props _ _ _ _ hj).2.2.2 with rfl | rfl | rfl
        · rw [h0] at hj; exact absurd hj (by simp)
        · rw [h1] at hj; exact absurd hj (by simp)
        · rw [h2] at hj
          injection hj with he
          subst he
          exact ⟨le_refl _, fun _ => ho2.le⟩
    | some a1 =>
      rw [tryOrder_first _ _ _ _ h1] at h
      have ho1 := (attempt_some_props _ _ _ _ h1).1
      cases h2 : attempt time concentration 2 with
      | none =>
        rw [tryOrder_none _ _ _ _ h2] at h
        injection h with hb
        subst hb
        refine ⟨by rw [ho1]; exact h1, ?_⟩
        intro j bj hj
        rcases (attempt_some_props _ _ _ _ hj).2.2.2 with rfl | rfl | rfl
        · rw [h0] at hj; exact absurd hj (by simp)
        · rw [h1] at hj
          injection hj with he
          subst he
          exact ⟨le_refl _, fun _ => ho1.le⟩
        · rw [h2] at hj; exact absurd hj (by simp)
      | some a2 =>
        rw [tryOrder_cmp _ _ _ _ _ h2] at h
        have ho2 := (attempt_some_props _ _ _ _ h2).1
        by_cases hc : a2.r2 > a1.r2
        · rw [if_pos hc] at h
          injection h with hb
          subst hb
          refine ⟨by rw [ho2]; exact h2, ?_⟩
          intro j bj hj
          rcases (attempt_some_props _ _ _ _ hj).2.2.2 with rfl | rfl | rfl
          · rw [h0] at hj; exact absurd hj (by simp)
          · rw [h1] at hj
            injection hj with he
            subst he
            exact ⟨hc.le, fun he2 => absurd he2 (ne_of_lt hc)⟩
          · rw [h2] at hj
            injection hj with he
            subst he
            exact ⟨le_refl _, fun _ => ho2.le⟩
        · rw [if_neg hc] at h
          injection h with hb
          subst hb
          refine ⟨by rw [ho1]; exact h1, ?_⟩
          intro j bj hj
          rcases (attempt_some_props _ _ _ _ hj).2.2.2 with rfl | rfl | rfl
          · rw [h0] at hj; exact absurd hj (by simp)
          · rw [h1] at hj
            injection hj with he
            subst he
            exact ⟨le_refl _, fun _ => ho1.le⟩
          · rw [h2] at hj
            injection hj with he
            subst he
            exact ⟨not_lt.mp hc, fun _ => le_trans ho1.le (by norm_num)⟩
  | some a0 =>
    rw [tryOrder_first _ _ _ _ h0] at h
    have ho0 := (attempt_some_props _ _ _ _ h0).1
    cases h1 : attempt time concentration 1 with
    | none =>
      rw [tryOrder_none _ _ _ _ h1] at h
      cases h2 : attempt time concentration 2 with
      | none =>
        rw [tryOrder_none _ _ _ _ h2] at h
        injection h with hb
        subst hb
        refine ⟨by rw [ho0]; exact h0, ?_⟩
        intro j bj hj
        rcases (attempt_some_props _ _ _ _ hj).2.2.2 with rfl | rfl | rfl
        · rw [h0] at hj
          injection hj with he
          subst he
          exact ⟨le_refl _, fun _ => ho0.le⟩
        · rw [h1] at hj; exact absurd hj (by simp)
        · rw [h2] at hj; exact absurd hj (by simp)
      | some a2 =>
        rw [tryOrder_cmp _ _ _ _ _ h2] at h
        have ho2 := (attempt_some_props _ _ _ _ h2).1
        by_cases hc : a2.r2 > a0.r2
        · rw [if_pos hc] at h
          injection h with hb
          subst hb
          refine ⟨by rw [ho2]; exact h2, ?_⟩
          intro j bj hj
          rcases (attempt_some_props _ _ _ _ hj).2.2.2 with rfl | rfl | rfl
          · rw [h0] at hj
            injection hj with he
            subst he
            exact ⟨hc.le, fun he2 => absurd he2 (ne_of_lt hc)⟩
          · rw [h1] at hj; exact absurd hj (by simp)
          · rw [h2] at hj
            injection hj with he
            subst he
            exact ⟨le_refl _, fun _ => ho2.le⟩
        · rw [if_neg hc] at h
          injection h with hb
          subst hb
          refine ⟨by rw [ho0]; exact h0, ?_⟩
          intro j bj hj
          rcases (attempt_some_props _ _ _ _ hj).2.2.2 with rfl | rfl | rfl
          · rw [h0] at hj
            injection hj with he
            subst he
            exact ⟨le_refl _, fun _ => ho0.le⟩
          · rw [h1] at hj; exact absurd hj (by simp)
          · rw [h2] at hj
            injection hj with he
            subst he
            exact ⟨not_lt.mp hc, fun _ => le_trans ho0.le (by norm_num)⟩
    | some a1 =>
      rw [tryOrder_cmp _ _ _ _ _ h1] at h
      have ho1 := (attempt_some_props _ _ _ _ h1).1
      by_cases hc1 : a1.r2 > a0.r2
      · rw [if_pos hc1] at h
        cases h2 : attempt time concentration 2 with
        | none =>
          rw [tryOrder_none _ _ _ _ h2] at h
          injection h with hb
          subst hb
          refine ⟨by rw [ho1]; exact h1, ?_⟩
          intro j bj hj
          rcases (attempt_some_props _ _ _ _ hj).2.2.2 with rfl | rfl | rfl
          · rw [h0] at hj
            injection hj with he
            subst he
            exact ⟨hc1.le, fun he2 => absurd he2 (ne_of_lt hc1)⟩
          · rw [h1] at hj
            injection hj with he
            subst he
            exact ⟨le_refl _, fun _ => ho1.le⟩
          · rw [h2] at hj; exact absurd hj (by simp)
        | some a2 =>
          rw [tryOrder_cmp _ _ _ _ _ h2] at h
          have ho2 := (attempt_some_props _ _ _ _ h2).1
          by_cases hc2 : a2.r2 > a1.r2
          · rw [if_pos hc2] at h
            injection h with hb
            subst hb
            refine ⟨by rw [ho2]; exact h2, ?_⟩
            intro j bj hj
            rcases (attempt_some_props _ _ _ _ hj).2.2.2 with rfl | rfl | rfl
            · rw [h0] at hj
              injection hj with he
              subst he
              exact ⟨(lt_trans hc1 hc2).le,
                fun he2 => absurd he2 (ne_of_lt (lt_trans hc1 hc2))⟩
            · rw [h1] at hj
              injection hj with he
              subst he
              exact ⟨hc2.le, fun he2 => absurd he2 (ne_of_lt hc2)⟩
            · rw [h2] at hj
              injection hj with he
              subst he
              exact ⟨le_refl _, fun _ => ho2.le⟩
          · rw [if_neg hc2] at h
            injection h with hb
            subst hb
            refine ⟨by rw [ho1]; exact h1, ?_⟩
            intro j bj hj
            rcases (attempt_some_props _ _ _ _ hj).2.2.2 with rfl | rfl | rfl
            · rw [h0] at hj
              injection hj with he
              subst he
              exact ⟨hc1.le, fun he2 => absurd he2 (ne_of_lt hc1)⟩
            · rw [h1] at hj
              injection hj with he
              subst he
              exact ⟨le_refl _, fun _ => ho1.le⟩
            · rw [h2] at hj
              injection hj with he
              subst he
              exact ⟨not_lt.mp hc2, fun _ => le_trans ho1.le (by norm_num)⟩
      · rw [if_neg hc1] at h
        cases h2 : attempt time concentration 2 with
        | none =>
          rw [tryOrder_none _ _ _ _ h2] at h
          injection h with hb
          subst hb
          refine ⟨by rw [ho0]; exact h0, ?_⟩
          intro j bj hj
          rcases (attempt_some_props _ _ _ _ hj).2.2.2 with rfl | rfl | rfl
          · rw [h0] at hj
            injection hj with he
            subst he
            exact ⟨le_refl _, fun _ => ho0.le⟩
          · rw [h1] at hj
            injection hj with he
            subst he
            exact ⟨not_lt.mp hc1, fun _ => le_trans ho0.le (by norm_num)⟩
          · rw [h2] at hj; exact absurd hj (by simp)
        | some a2 =>
          rw [tryOrder_cmp _ _ _ _ _ h2] at h
          have ho2 := (attempt_some_props _ _ _ _ h2).1
          by_cases hc2 : a2.r2 > a0.r2
          · rw [if_pos hc2] at h
            injection h with hb
            subst hb
            refine ⟨by rw [ho2]; exact h2, ?_⟩
            intro j bj hj
            rcases (attempt_some_props _ _ _ _ hj).2.2.2 with rfl | rfl | rfl
            · rw [h0] at hj
              injection hj with he
              subst he
              exact ⟨hc2.le, fun he2 => absurd he2 (ne_of_lt hc2)⟩
            · rw [h1] at hj
              injection hj with he
              subst he
              have hlt : a1.r2 < a2.r2 := lt_of_le_of_lt (not_lt.mp hc1) hc2
              exact ⟨hlt.le, fun he2 => absurd he2 (ne_of_lt hlt)⟩
            · rw [h2] at hj
              injection hj with he
              subst he
              exact ⟨le_refl _, fun _ => ho2.le⟩
          · rw [if_neg hc2] at h
            injection h with hb
            subst hb
            refine ⟨by rw [ho0]; exact h0, ?_⟩
            intro j bj hj
            rcases (attempt_some_props _ _ _ _ hj).2.2.2 with rfl | rfl | rfl
            · rw [h0] at hj
              injection hj with he
              subst he
              exact ⟨le_refl _, fun _ => ho0.le⟩
            · rw [h1] at hj
              injection hj with he
              subst he
              exact ⟨not_lt.mp hc1, fun _ => le_trans ho0.le (by norm_num)⟩
            · rw [h2] at hj
              injection hj with he
              subst he
              exact ⟨not_lt.mp hc2, fun _ => le_trans ho0.le (by norm_num)⟩

/-- C3: For every valid input, when two or more orders yield exactly equal
r² values, the selector returns the lowest-numbered (earliest-tested) of
those orders: the comparison against the best value seen so far is strict
greater-than, so a later order with an equal r² never replaces an earlier
one.  Formally, any order whose attempt produced exactly the returned r² is
≥ the returned order, and the returned order itself produced that r². -/
theorem claim_C3 (time concentration : List ℝ) (o : ℤ) (r2 : ℝ)
    (d : BestDetails)
    (h : determine_best_order time concentration = .ok (o, r2, d))
    (j : ℤ) (hj : r2For time concentration j = some r2) :
    o ≤ j ∧ r2For time concentration o = some r2 := by
  rw [determine_unfold] at h
  cases hf : tryOrder time concentration
      (tryOrder time concentration
        (tryOrder time concentration none 0) 1) 2 with
  | none =>
    rw [hf] at h
    exact absurd h (by simp)
  | some b =>
    rw [hf] at h
    dsimp only at h
    simp only [Except.ok.injEq, Prod.mk.injEq] at h
    obtain ⟨hbo, hbr, -⟩ := h
    obtain ⟨hself, hmax⟩ := fold_spec time concentration b hf
    unfold r2For at hj
    rcases Option.map_eq_some'.mp hj with ⟨bj, hbj, hbjr2⟩
    obtain ⟨-, heq⟩ := hmax j bj hbj
    constructor
    · rw [← hbo]
      exact heq (hbjr2.trans hbr.symm)
    · unfold r2For
      rw [← hbo, hself]
      simp [hbr]

/-! ## Concrete evaluations -/

/-- The pair `[0, 1]` is not degenerate. -/
theorem not_allEqual_01 : ¬ allEqual [(0 : ℝ), 1] :=
  not_allEqual_of_distinct _ ⟨0, by simp, 1, by simp, by norm_num⟩

/-- Regressing the constant response `[1, 1]` against `[0, 1]`: slope 0,
intercept 1, correlation 0 (zero response variance). -/
theorem linregress_const_pair : linregress [0, 1] [1, 1] = .ok ⟨0, 1, 0⟩ := by
  rw [linregress_ok_of [0, 1] [1, 1] (by simp) not_allEqual_01]
  have hxy : ssxym [0, 1] [1, 1] = 0 := by
    norm_num [ssxym, mean]
  have hyy : ssym [(1 : ℝ), 1] = 0 := by
    norm_num [ssym, mean]
  have hr : rcalc [0, 1] [1, 1] = 0 := by
    unfold rcalc
    rw [if_pos (Or.inr hyy)]
  rw [hxy, hr]
  have hm : mean [(1 : ℝ), 1] = 1 := by
    norm_num [mean]
  rw [hm]
  norm_num

/-- Regressing the constant response `[0, 0]` against `[0, 1]`: slope 0,
intercept 0, correlation 0. -/
theorem linregress_zero_pair : linregress [0, 1] [0, 0] = .ok ⟨0, 0, 0⟩ := by
  rw [linregress_ok_of [0, 1] [0, 0] (by simp) not_allEqual_01]
  have hxy : ssxym [0, 1] [0, 0] = 0 := by
    norm_num [ssxym, mean]
  have hyy : ssym [(0 : ℝ), 0] = 0 := by
    norm_num [ssym, mean]
  have hr : rcalc [0, 1] [0, 0] = 0 := by
    unfold rcalc
    rw [if_pos (Or.inr hyy)]
  rw [hxy, hr]
  have hm : mean [(0 : ℝ), 0] = 0 := by
    norm_num [mean]
  rw [hm]
  norm_num

/-- Order 0 on `time = [0, 1]`, `concentration = [1, 1]`. -/
theorem attempt_0_const :
    attempt [0, 1] [1, 1] 0
      = some ⟨0, 0, ⟨0, 1, [1, 1], "[A] (M)", -1⟩⟩ := by
  rw [attempt_some_of [0, 1] [1, 1] 0 [0, 1] [1, 1] "[A] (M)" (-1) ⟨0, 1, 0⟩
    (transform_data_zero [0, 1] [1, 1]) linregress_const_pair]
  norm_num

/-- Order 1 on `time = [0, 1]`, `concentration = [1, 1]`:
`ln` turns the response into `[0, 0]`. -/
theorem attempt_1_const :
    attempt [0, 1] [1, 1] 1
      = some ⟨1, 0, ⟨0, 0, [0, 0], "ln[A]", -1⟩⟩ := by
  have hpos : ¬ ∃ x ∈ ([1, 1] : List ℝ), x ≤ 0 := by norm_num
  have htr : transform_data [0, 1] [1, 1] 1
      = .ok ([0, 1], [0, 0], "ln[A]", -1) := by
    rw [transform_data_one_pos [0, 1] [1, 1] hpos]
    simp
  rw [attempt_some_of [0, 1] [1, 1] 1 [0, 1] [0, 0] "ln[A]" (-1) ⟨0, 0, 0⟩
    htr linregress_zero_pair]
  norm_num

/-- Order 2 on `time = [0, 1]`, `concentration = [1, 1]`:
the reciprocal leaves the response `[1, 1]`. -/
theorem attempt_2_const :
    attempt [0, 1] [1, 1] 2
      = some ⟨2, 0, ⟨0, 1, [1, 1], "1/[A] (1/M)", 1⟩⟩ := by
  have hpos : ¬ ∃ x ∈ ([1, 1] : List ℝ), x ≤ 0 := by norm_num
  have htr : transform_data [0, 1] [1, 1] 2
      = .ok ([0, 1], [1, 1], "1/[A] (1/M)", 1) := by
    rw [transform_data_two_pos [0, 1] [1, 1] hpos]
    simp
  rw [attempt_some_of [0, 1] [1, 1] 2 [0, 1] [1, 1] "1/[A] (1/M)" 1 ⟨0, 1, 0⟩
    htr linregress_const_pair]
  norm_num

/-- The selector on `time = [0, 1]`, `concentration = [1, 1]`: all three
orders tie at r² = 0 and order 0, tested first, wins. -/
theorem determine_const :
    determine_best_order [0, 1] [1, 1]
      = .ok (0, 0, ⟨0, 1, [1, 1], "[A] (M)", -1⟩) := by
  rw [determine_unfold, tryOrder_first _ _ _ _ attempt_0_const,
    tryOrder_cmp _ _ _ _ _ attempt_1_const, if_neg (by norm_num),
    tryOrder_cmp _ _ _ _ _ attempt_2_const, if_neg (by norm_num)]

/-- Witness for C3 at `time = [0, 1]`, `concentration = [1, 1]`, where all
three orders yield r² = 0 and the selector returns order 0. -/
theorem claim_C3_witness :
    (0 : ℤ) ≤ 1 ∧ r2For [0, 1] [1, 1] 0 = some 0 :=
  claim_C3 [0, 1] [1, 1] 0 0 ⟨0, 1, [1, 1], "[A] (M)", -1⟩
    determine_const 1 (by simp [r2For, attempt_1_const])

/-- A running best that already holds the maximal possible r² = 1 is never
replaced: any later candidate's r² is at most 1, and the comparison is
strict. -/
theorem tryOrder_keep_top (time concentration : List ℝ) (b : BestFit)
    (o : ℤ) (hb : b.r2 = 1) :
    tryOrder time concentration (some b) o = some b := by
  cases hatt : attempt time concentration o with
  | none => exact tryOrder_none _ _ _ _ hatt
  | some cand =>
    rw [tryOrder_cmp _ _ _ _ _ hatt, if_neg]
    rw [hb]
    exact not_lt.mpr (attempt_some_props _ _ _ _ hatt).2.2.1

/-- The spec's example time grid is not degenerate. -/
theorem not_allEqual_t4 : ¬ allEqual [(0 : ℝ), 10, 20, 30] :=
  not_allEqual_of_distinct _ ⟨0, by simp, 10, by simp, by norm_num⟩

/-- Order-0 regression of the exact linear decay
`concentration = [1, 0.8, 0.6, 0.4]` against `time = [0, 10, 20, 30]`:
slope −0.02, intercept 1, correlation −1. -/
theorem linregress_decay :
    linregress [0, 10, 20, 30] [1, 0.8, 0.6, 0.4]
      = .ok ⟨-0.02, 1, -1⟩ := by
  have hsxy : ssxym [0, 10, 20, 30] [1, 0.8, 0.6, 0.4] = -2.5 := by
    norm_num [ssxym, mean]
  have hsxx : ssxm [(0 : ℝ), 10, 20, 30] = 125 := by
    norm_num [ssxm, mean]
  have hsyy : ssym [(1 : ℝ), 0.8, 0.6, 0.4] = 0.05 := by
    norm_num [ssym, mean]
  have hrc : rcalc [0, 10, 20, 30] [1, 0.8, 0.6, 0.4] = -1 := by
    unfold rcalc
    rw [if_neg (by rw [hsxx, hsyy]; norm_num)]
    rw [hsxx, hsyy, hsxy]
    rw [show (125 * 0.05 : ℝ) = 2.5 ^ 2 by norm_num,
      Real.sqrt_sq (by norm_num : (0 : ℝ) ≤ 2.5)]
    norm_num [min_def, max_def]
  rw [linregress_ok_of _ _ (by simp) not_allEqual_t4, hsxy, hsxx, hrc]
  norm_num [mean]

/-- C2: For the specific input time = [0, 10, 20, 30],
concentration = [1.0, 0.8, 0.6, 0.4] (exact zero-order linear decay with
k = 0.02), the selector returns order 0 with r_squared equal to 1, and the
recovered rate constant sign_factor × slope equals 0.02 exactly (the
floating-point tolerance of the claim is not needed over ℝ). -/
theorem claim_C2 :
    ∃ d : BestDetails,
      determine_best_order [0, 10, 20, 30] [1, 0.8, 0.6, 0.4]
        = .ok (0, 1, d) ∧
      d.slope = -0.02 ∧ d.sign_factor = -1 ∧
      (d.sign_factor : ℝ) * d.slope = 0.02 ∧
      d.y = [1, 0.8, 0.6, 0.4] ∧ d.ylabel = "[A] (M)" ∧ d.intercept = 1 := by
  have hatt0 : attempt [0, 10, 20, 30] [1, 0.8, 0.6, 0.4] 0
      = some ⟨0, 1, ⟨-0.02, 1, [1, 0.8, 0.6, 0.4], "[A] (M)", -1⟩⟩ := by
    rw [attempt_some_of [0, 10, 20, 30] [1, 0.8, 0.6, 0.4] 0
      [0, 10, 20, 30] [1, 0.8, 0.6, 0.4] "[A] (M)" (-1) ⟨-0.02, 1, -1⟩
      (transform_data_zero _ _) linregress_decay]
    norm_num
  refine ⟨⟨-0.02, 1, [1, 0.8, 0.6, 0.4], "[A] (M)", -1⟩, ?_, rfl, rfl,
    by norm_num, rfl, rfl, rfl⟩
  rw [determine_unfold, tryOrder_first _ _ _ _ hatt0,
    tryOrder_keep_top _ _ _ 1 rfl, tryOrder_keep_top _ _ _ 2 rfl]
